import Mathlib

/-!
Shallow embedding of the dial simulator (`src/bin/1.rs`).

The source is a Rust program: a `Dial` holds a `u8` position in 0..99, and
`Dial::turn` applies a `Rotation` (direction `Left`/`Right`, `u32` magnitude)
using `i32` intermediate arithmetic with truncating division (`Int.tdiv`) and
truncating remainder (`Int.tmod`), which match Rust's `/` and `%` on `i32`.
Machine integers are modelled as `Nat`/`Int` with explicit two's-complement
wrapping where the Rust types wrap: `u32::cast_signed` is `u32ToI32`, and
`i32` multiplication wraps through `wrap32` (release-mode semantics).  The
fallible `u8::try_from(..).expect(..)` is modelled by `u8TryFrom` returning
`Option`, so `Dial.turn` returns `none` exactly when the Rust `expect` would
panic.
-/

namespace Aoc

/-- `enum Direction { Left = -1, Right = 1 }`. -/
inductive Direction where
  | Left
  | Right
deriving DecidableEq

/-- `rotation.direction as i32`: the discriminant of the `#[repr(i8)]` enum. -/
def Direction.toInt : Direction → Int
  | .Left => -1
  | .Right => 1

/-- `struct Rotation { direction: Direction, steps: u32 }`.
`steps` is a `Nat`; the `u32` range bound `steps < 2 ^ 32` is carried as a
hypothesis where a claim needs it. -/
structure Rotation where
  direction : Direction
  steps : Nat
deriving DecidableEq

/-- `struct Dial { position: u8 }`.  `position` is a `Nat`; the code keeps it
in 0..99. -/
structure Dial where
  position : Nat
deriving DecidableEq

/-- `u32::cast_signed`: reinterpret a `u32` value as `i32` (two's complement). -/
def u32ToI32 (s : Nat) : Int :=
  if s < 2 ^ 31 then (s : Int) else (s : Int) - 2 ^ 32

/-- Two's-complement wrap of an integer into the `i32` range
`[-2 ^ 31, 2 ^ 31)`, the release-mode result of an overflowing `i32` op. -/
def wrap32 (x : Int) : Int :=
  (x + 2 ^ 31) % 2 ^ 32 - 2 ^ 31

/-- `let steps: i32 = rotation.steps.cast_signed() * rotation.direction as i32;` -/
def signedSteps (r : Rotation) : Int :=
  wrap32 (u32ToI32 r.steps * r.direction.toInt)

/-- `u8::try_from`: succeeds exactly on the `u8` range 0..=255. -/
def u8TryFrom (x : Int) : Option Nat :=
  if 0 ≤ x ∧ x ≤ 255 then some x.toNat else none

/-- The body of `Dial::turn` after `steps` has been computed: the crossing
seed `(steps / 100).unsigned_abs()`, the remainder movement, the two
wraparound corrections and the landing-on-zero adjustment.  Returns the final
`new_position` (still an `i32`) and `zero_crossings`. -/
def turnCore (p : Nat) (steps : Int) : Int × Nat :=
  let zero_crossings : Nat := (steps.tdiv 100).natAbs
  let rem_steps : Int := steps.tmod 100
  let new_position : Int := (p : Int) + rem_steps
  -- Correct out-of-bounds caused by <100 step rotation
  let res1 : Int × Nat :=
    if new_position < 0 then
      -- Going negative means we crossed zero - unless we were already at zero.
      (new_position + 100, if p ≠ 0 then zero_crossings + 1 else zero_crossings)
    else (new_position, zero_crossings)
  let res2 : Int × Nat :=
    if res1.1 > 99 then
      -- If we landed on zero exactly, this crossing
      -- will be captured by the new_position == 0 check
      (res1.1 - 100, if res1.1 - 100 ≠ 0 then res1.2 + 1 else res1.2)
    else res1
  -- Count landing on zero as a zero-crossing,
  -- unless it was achieved by an exact rotation,
  -- in which case this is captured already.
  let final_crossings : Nat :=
    if res2.1 = 0 ∧ rem_steps ≠ 0 then res2.2 + 1 else res2.2
  (res2.1, final_crossings)

/-- `Dial::turn`: computes the signed step count, runs the crossing logic,
then commits the new position through `u8::try_from(..).expect(..)` —
modelled as `none` when the conversion would panic. -/
def Dial.turn (d : Dial) (r : Rotation) : Option (Dial × Nat) :=
  let steps : Int := signedSteps r
  let res : Int × Nat := turnCore d.position steps
  match u8TryFrom res.1 with
  | some p => some (⟨p⟩, res.2)
  | none => none

/-- `impl Default for Dial`: starting position 50. -/
def Dial.default : Dial := ⟨50⟩

/-- Apply a list of rotations in order, failing if any `turn` fails; returns
the final dial.  Models the driver loop's repeated `dial.turn(&rotation)`. -/
def Dial.run (d : Dial) (rs : List Rotation) : Option Dial :=
  match rs with
  | [] => some d
  | r :: rest =>
    match d.turn r with
    | some (d', _) => d'.run rest
    | none => none

/-! ### The parser, `impl TryFrom<&str> for Rotation`

The parser is modelled at the byte level: a Rust `&str` is UTF-8 bytes, and
both `u32::from_str` and the byte slice `&value[1..]` work on bytes.  The
slice panics when index 1 is not a char boundary, so `Rotation.tryFromBytes`
returns `Option (Except ..)`, with `none` for a panic. -/

/-- The reachable cases of `std::num::IntErrorKind` for `u32::from_str`. -/
inductive IntErrorKind where
  | Empty
  | InvalidDigit
  | PosOverflow
deriving DecidableEq

/-- `enum RotationParseError`. -/
inductive RotationParseError where
  | IncorrectStartOfLineCharacter
  | ParseIntError (e : IntErrorKind)
deriving DecidableEq

instance {ε α : Type} [DecidableEq ε] [DecidableEq α] : DecidableEq (Except ε α) :=
  fun a b =>
    match a, b with
    | .ok a, .ok b => decidable_of_iff (a = b) (by simp)
    | .ok _, .error _ => isFalse (fun h => Except.noConfusion h)
    | .error _, .ok _ => isFalse (fun h => Except.noConfusion h)
    | .error e, .error f => decidable_of_iff (e = f) (by simp)

/-- The digit loop of `u32::from_str_radix` (radix 10) with checked
arithmetic: a non-digit byte fails with `InvalidDigit`; exceeding the `u32`
range fails with `PosOverflow`. -/
def parseDigits (acc : Nat) : List Nat → Except IntErrorKind Nat
  | [] => .ok acc
  | b :: rest =>
    if 48 ≤ b ∧ b ≤ 57 then
      if acc * 10 + (b - 48) < 2 ^ 32 then parseDigits (acc * 10 + (b - 48)) rest
      else .error .PosOverflow
    else .error .InvalidDigit

/-- `u32::from_str` on the UTF-8 bytes of a string: the empty string is
`Empty`; a lone `+` is `InvalidDigit`; a leading `+` is stripped; a leading
`-` (unsigned target) falls through to the digit loop, whose first byte then
fails as a non-digit. -/
def parseU32 (bs : List Nat) : Except IntErrorKind Nat :=
  match bs with
  | [] => .error .Empty
  | [43] => .error .InvalidDigit
  | 43 :: rest => parseDigits 0 rest
  | _ => parseDigits 0 bs

/-- `str::is_char_boundary`: index 0, the end of the string, or a byte that
is not a UTF-8 continuation byte (`128 ≤ b < 192`). -/
def isCharBoundary (bs : List Nat) (i : Nat) : Bool :=
  if i = 0 then true
  else
    match bs[i]? with
    | none => i == bs.length
    | some b => !(128 ≤ b && b < 192)

/-- `&value[i..]`: byte slicing of a `&str`, which panics (`none`) when `i`
is not a char boundary. -/
def byteSliceFrom (bs : List Nat) (i : Nat) : Option (List Nat) :=
  if isCharBoundary bs i then some (bs.drop i) else none

/-- `impl TryFrom<&str> for Rotation` on the string's UTF-8 bytes.
`value.chars().next()` decodes the first scalar; it equals `'L'` (resp.
`'R'`) exactly when the first byte is 76 (resp. 82), since both are one-byte
ASCII chars; every other outcome — another char, a multi-byte first char, or
the empty string — takes the error arm of the `match`.  The `?` operator
returns that error before the byte slice `&value[1..]` is evaluated. -/
def Rotation.tryFromBytes (bs : List Nat) : Option (Except RotationParseError Rotation) :=
  let direction : Except RotationParseError Direction :=
    match bs.head? with
    | none => .error .IncorrectStartOfLineCharacter
    | some b =>
      if b = 76 then .ok .Left
      else if b = 82 then .ok .Right
      else .error .IncorrectStartOfLineCharacter
  match direction with
  | .error e => some (.error e)
  | .ok direction =>
    match byteSliceFrom bs 1 with
    | none => none
    | some rest =>
      some (((parseU32 rest).mapError RotationParseError.ParseIntError).map
        (fun steps => { direction := direction, steps := steps }))

/-- UTF-8 encoding of one char. -/
def utf8Bytes (c : Char) : List Nat :=
  let n := c.toNat
  if n < 128 then [n]
  else if n < 2048 then [192 + n / 64, 128 + n % 64]
  else if n < 65536 then [224 + n / 4096, 128 + n / 64 % 64, 128 + n % 64]
  else [240 + n / 262144, 128 + n / 4096 % 64, 128 + n / 64 % 64, 128 + n % 64]

/-- The UTF-8 bytes of a string, given as its chars. -/
def strBytes (cs : List Char) : List Nat :=
  cs.flatMap utf8Bytes

/-- Modelled from the spec's parsing rule, for comparison with the code's
`Rotation.tryFromBytes`: the first character must be `L` or `R`
(case-sensitive), mapping to Left/Right; any other leading character (or an
empty line) fails with `IncorrectStartOfLineCharacter`; the remainder must
parse as a non-negative integer, else the underlying cause is wrapped in
`ParseIntError`. -/
def tryFromSpec (cs : List Char) : Except RotationParseError Rotation :=
  match cs with
  | c :: rest =>
    if c = 'L' then
      ((parseU32 (strBytes rest)).mapError RotationParseError.ParseIntError).map
        (fun steps => { direction := Direction.Left, steps := steps })
    else if c = 'R' then
      ((parseU32 (strBytes rest)).mapError RotationParseError.ParseIntError).map
        (fun steps => { direction := Direction.Right, steps := steps })
    else .error .IncorrectStartOfLineCharacter
  | [] => .error .IncorrectStartOfLineCharacter

/-! ### The naive click-by-click crossing count

The spec counts a zero crossing as "the dial's pointer passes through or
lands on position 0 during a rotation": with the pointer moving one click at
a time, the count is the number of clicks at which the pointer sits at 0. -/

/-- One click of the pointer: left decrements, right increments, both with
wraparound on the 100-position dial. -/
def clickOnce : Direction → Nat → Nat
  | .Right, q => (q + 1) % 100
  | .Left, q => (q + 99) % 100

/-- The pointer's position after `k` single clicks in direction `d`,
starting from `p`. -/
def pointerPos (d : Direction) (p k : Nat) : Nat := (clickOnce d)^[k] p

/-- The number of clicks `k ∈ 1..s` at which the pointer is at position 0:
the spec's zero-crossing count for a single rotation of magnitude `s`. -/
def naiveCrossings (d : Direction) (p s : Nat) : Nat :=
  (List.range s).countP (fun k => pointerPos d p (k + 1) == 0)

/-! ### Closed forms for `turnCore` -/

lemma tdiv_natCast_hundred (n : Nat) : (n : Int).tdiv 100 = ((n / 100 : Nat) : Int) :=
  (Int.ofNat_tdiv n 100).symm

lemma tmod_natCast_hundred (n : Nat) : (n : Int).tmod 100 = ((n % 100 : Nat) : Int) :=
  (Int.ofNat_tmod n 100).symm

lemma neg_tmod_hundred (n : Nat) : (-(n : Int)).tmod 100 = -((n % 100 : Nat) : Int) := by
  rw [Int.tmod_def, Int.neg_tdiv, tdiv_natCast_hundred]
  push_cast
  omega

lemma turnCore_right (p n : Nat) (hp : p ≤ 99) :
    turnCore p (n : Int) =
      ((((p + n) % 100 : Nat) : Int),
        n / 100 + if 100 ≤ p + n % 100 then 1 else 0) := by
  simp only [turnCore, tdiv_natCast_hundred, tmod_natCast_hundred, Int.natAbs_ofNat]
  split_ifs <;> dsimp only <;> simp only [Prod.mk.injEq] <;> refine ⟨?_, ?_⟩ <;>
    push_cast <;> omega

lemma turnCore_left (p n : Nat) (hp : p ≤ 99) :
    turnCore p (-(n : Int)) =
      ((((p + 100 - n % 100) % 100 : Nat) : Int),
        n / 100 + if p ≠ 0 ∧ p ≤ n % 100 then 1 else 0) := by
  simp only [turnCore, Int.neg_tdiv, tdiv_natCast_hundred, neg_tmod_hundred,
    Int.natAbs_neg, Int.natAbs_ofNat]
  split_ifs <;> dsimp only <;> simp only [Prod.mk.injEq] <;> refine ⟨?_, ?_⟩ <;>
    push_cast <;> omega

/-! ### `signedSteps` on in-range and out-of-range magnitudes -/

lemma signedSteps_right (s : Nat) (hs : s ≤ 2 ^ 31 - 1) :
    signedSteps ⟨.Right, s⟩ = (s : Int) := by
  simp only [signedSteps, u32ToI32, Direction.toInt, wrap32]
  rw [if_pos (by omega)]
  omega

lemma signedSteps_left (s : Nat) (hs : s ≤ 2 ^ 31 - 1) :
    signedSteps ⟨.Left, s⟩ = -(s : Int) := by
  simp only [signedSteps, u32ToI32, Direction.toInt, wrap32]
  rw [if_pos (by omega)]
  omega

/-- The signed step counts of a left and a right rotation of the same
magnitude cancel, for every `u32` magnitude except `2 ^ 31` (whose negation
overflows `i32` and wraps back to `-2 ^ 31`). -/
lemma signedSteps_left_add_right (s : Nat) (hs : s ≤ 2 ^ 32 - 1) (hne : s ≠ 2 ^ 31) :
    signedSteps ⟨.Left, s⟩ + signedSteps ⟨.Right, s⟩ = 0 := by
  simp only [signedSteps, u32ToI32, Direction.toInt, wrap32]
  split_ifs <;> omega

/-! ### The final position of a turn, for arbitrary signed steps -/

lemma turnCore_fst_emod (p : Nat) (st : Int) (hp : p ≤ 99) :
    (turnCore p st).1 = ((p : Int) + st) % 100 := by
  rcases Int.le_or_lt 0 st with h | h
  · obtain ⟨n, rfl⟩ := Int.eq_ofNat_of_zero_le h
    rw [turnCore_right p n hp]
    omega
  · obtain ⟨n, rfl⟩ := Int.exists_eq_neg_ofNat (Int.le_of_lt h)
    rw [turnCore_left p n hp]
    omega

/-- For an in-range dial, `turn` always succeeds (the `u8::try_from` never
panics) and the committed position is `(p + steps) mod 100`, hence in 0..99. -/
lemma turn_eq_some (d : Dial) (r : Rotation) (hp : d.position ≤ 99) :
    d.turn r = some (⟨(((d.position : Int) + signedSteps r) % 100).toNat⟩,
      (turnCore d.position (signedSteps r)).2) := by
  have hfst := turnCore_fst_emod d.position (signedSteps r) hp
  have hu : u8TryFrom (turnCore d.position (signedSteps r)).1 =
      some ((((d.position : Int) + signedSteps r) % 100).toNat) := by
    rw [u8TryFrom, hfst, if_pos (by constructor <;> omega)]
  unfold Dial.turn
  simp only
  rw [hu]

lemma turn_position_le (d : Dial) (r : Rotation) :
    ((((d.position : Int) + signedSteps r) % 100).toNat) ≤ 99 := by
  omega

/-! ### `Dial.turn` closed forms for in-range magnitudes -/

lemma turn_right_closed (p s : Nat) (hp : p ≤ 99) (hs : s ≤ 2 ^ 31 - 1) :
    (Dial.mk p).turn ⟨.Right, s⟩ =
      some (⟨(p + s) % 100⟩,
        s / 100 + if 100 ≤ p + s % 100 then 1 else 0) := by
  rw [turn_eq_some ⟨p⟩ ⟨.Right, s⟩ hp]
  rw [show signedSteps ⟨.Right, s⟩ = (s : Int) from signedSteps_right s hs]
  rw [show turnCore p (s : Int) = _ from turnCore_right p s hp]
  have : (((p : Int) + (s : Int)) % 100).toNat = (p + s) % 100 := by omega
  rw [this]

lemma turn_left_closed (p s : Nat) (hp : p ≤ 99) (hs : s ≤ 2 ^ 31 - 1) :
    (Dial.mk p).turn ⟨.Left, s⟩ =
      some (⟨(p + 100 - s % 100) % 100⟩,
        s / 100 + if p ≠ 0 ∧ p ≤ s % 100 then 1 else 0) := by
  rw [turn_eq_some ⟨p⟩ ⟨.Left, s⟩ hp]
  rw [show signedSteps ⟨.Left, s⟩ = -(s : Int) from signedSteps_left s hs]
  rw [show turnCore p (-(s : Int)) = _ from turnCore_left p s hp]
  have : (((p : Int) + -(s : Int)) % 100).toNat = (p + 100 - s % 100) % 100 := by omega
  rw [this]

/-! ### Closed forms for the naive crossing count -/

lemma pointerPos_right (p k : Nat) (hp : p ≤ 99) :
    pointerPos .Right p k = (p + k) % 100 := by
  induction k with
  | zero => simp only [pointerPos, Function.iterate_zero, id_eq]; omega
  | succ k ih =>
    rw [pointerPos, Function.iterate_succ_apply', ← pointerPos, ih]
    show ((p + k) % 100 + 1) % 100 = _
    omega

lemma pointerPos_left (p k : Nat) (hp : p ≤ 99) :
    pointerPos .Left p k = (p + 99 * k) % 100 := by
  induction k with
  | zero => simp only [pointerPos, Function.iterate_zero, id_eq]; omega
  | succ k ih =>
    rw [pointerPos, Function.iterate_succ_apply', ← pointerPos, ih]
    show ((p + 99 * k) % 100 + 99) % 100 = _
    have h99 : 99 * (k + 1) = 99 * k + 99 := by ring
    rw [h99, ← Nat.add_assoc]
    generalize p + 99 * k = m
    omega

lemma naiveCrossings_succ (d : Direction) (p s : Nat) :
    naiveCrossings d p (s + 1) =
      naiveCrossings d p s + if pointerPos d p (s + 1) = 0 then 1 else 0 := by
  simp [naiveCrossings, List.range_succ, List.countP_append, List.countP_cons]

lemma naiveCrossings_right_closed (p s : Nat) (hp : p ≤ 99) :
    naiveCrossings .Right p s = s / 100 + if 100 ≤ p + s % 100 then 1 else 0 := by
  induction s with
  | zero =>
    simp only [naiveCrossings, List.range_zero, List.countP_nil]
    rw [if_neg (by omega)]
  | succ s ih =>
    rw [naiveCrossings_succ, ih, pointerPos_right p (s + 1) hp]
    rcases Nat.lt_or_ge (s % 100) 99 with h | h <;> split_ifs <;> omega

lemma naiveCrossings_left_closed (p s : Nat) (hp : p ≤ 99) :
    naiveCrossings .Left p s = s / 100 + if p ≠ 0 ∧ p ≤ s % 100 then 1 else 0 := by
  induction s with
  | zero =>
    simp only [naiveCrossings, List.range_zero, List.countP_nil]
    rw [if_neg (by omega)]
  | succ s ih =>
    rw [naiveCrossings_succ, ih, pointerPos_left p (s + 1) hp]
    rcases Nat.lt_or_ge (s % 100) 99 with h | h <;> split_ifs <;> omega

/-! ### UTF-8 facts and the parser -/

lemma utf8Bytes_ascii (c : Char) (h : c.toNat < 128) : utf8Bytes c = [c.toNat] := by
  unfold utf8Bytes
  rw [if_pos h]

lemma utf8Bytes_head_big (c : Char) (h : 128 ≤ c.toNat) :
    ∃ b tl, utf8Bytes c = b :: tl ∧ 192 ≤ b := by
  unfold utf8Bytes
  dsimp only
  split_ifs with h1 h2 h3
  · omega
  · exact ⟨_, _, rfl, by omega⟩
  · exact ⟨_, _, rfl, by omega⟩
  · exact ⟨_, _, rfl, by omega⟩

lemma char_eq_L_of_toNat (c : Char) (h : c.toNat = 76) : c = 'L' := by
  apply Char.ext
  apply UInt32.eq_of_toBitVec_eq
  apply BitVec.eq_of_toNat_eq
  exact h

lemma char_eq_R_of_toNat (c : Char) (h : c.toNat = 82) : c = 'R' := by
  apply Char.ext
  apply UInt32.eq_of_toBitVec_eq
  apply BitVec.eq_of_toNat_eq
  exact h

lemma strBytes_cons (c : Char) (cs : List Char) :
    strBytes (c :: cs) = utf8Bytes c ++ strBytes cs := by
  simp [strBytes]

/-- Index 1 of an encoded string whose first char is one-byte is a char
boundary: what follows is either the end of the string or the lead byte of
the next char, never a continuation byte. -/
lemma isCharBoundary_one (b0 : Nat) (cs : List Char) :
    isCharBoundary (b0 :: strBytes cs) 1 = true := by
  cases cs with
  | nil => simp [isCharBoundary, strBytes]
  | cons c rest =>
    rcases Nat.lt_or_ge c.toNat 128 with h | h
    · rw [strBytes_cons, utf8Bytes_ascii c h]
      simp [isCharBoundary]
      omega
    · obtain ⟨b, tl, hb, hge⟩ := utf8Bytes_head_big c h
      rw [strBytes_cons, hb]
      simp [isCharBoundary]
      omega

lemma byteSliceFrom_one (b0 : Nat) (cs : List Char) :
    byteSliceFrom (b0 :: strBytes cs) 1 = some (strBytes cs) := by
  rw [byteSliceFrom, if_pos (isCharBoundary_one b0 cs)]
  rfl

/-- The code's parser agrees with the spec's parsing rule on the UTF-8
encoding of every char sequence — in particular it never panics. -/
lemma tryFromBytes_strBytes (cs : List Char) :
    Rotation.tryFromBytes (strBytes cs) = some (tryFromSpec cs) := by
  cases cs with
  | nil => rfl
  | cons c rest =>
    by_cases hL : c = 'L'
    · subst hL
      have henc : strBytes ('L' :: rest) = 76 :: strBytes rest := by
        rw [strBytes_cons, utf8Bytes_ascii 'L' (by decide)]
        rfl
      rw [henc]
      unfold Rotation.tryFromBytes
      simp only [List.head?_cons]
      rw [byteSliceFrom_one 76 rest]
      simp [tryFromSpec]
    · by_cases hR : c = 'R'
      · subst hR
        have henc : strBytes ('R' :: rest) = 82 :: strBytes rest := by
          rw [strBytes_cons, utf8Bytes_ascii 'R' (by decide)]
          rfl
        rw [henc]
        unfold Rotation.tryFromBytes
        simp only [List.head?_cons]
        rw [byteSliceFrom_one 82 rest]
        simp [tryFromSpec, hL]
      · have hspec : tryFromSpec (c :: rest) = .error .IncorrectStartOfLineCharacter := by
          rw [tryFromSpec, if_neg hL, if_neg hR]
        rcases Nat.lt_or_ge c.toNat 128 with h | h
        · have h76 : c.toNat ≠ 76 := fun h' => hL (char_eq_L_of_toNat c h')
          have h82 : c.toNat ≠ 82 := fun h' => hR (char_eq_R_of_toNat c h')
          rw [strBytes_cons, utf8Bytes_ascii c h, List.cons_append]
          unfold Rotation.tryFromBytes
          simp only [List.head?_cons]
          rw [if_neg h76, if_neg h82, hspec]
        · obtain ⟨b, tl, hb, hge⟩ := utf8Bytes_head_big c h
          rw [strBytes_cons, hb, List.cons_append]
          unfold Rotation.tryFromBytes
          simp only [List.head?_cons]
          rw [if_neg (by omega : ¬b = 76), if_neg (by omega : ¬b = 82), hspec]

lemma tryFromSpec_cons_L (rest : List Char) :
    tryFromSpec ('L' :: rest) =
      ((parseU32 (strBytes rest)).mapError RotationParseError.ParseIntError).map
        (fun steps => ⟨Direction.Left, steps⟩) := by
  rw [tryFromSpec, if_pos rfl]

lemma tryFromSpec_cons_R (rest : List Char) :
    tryFromSpec ('R' :: rest) =
      ((parseU32 (strBytes rest)).mapError RotationParseError.ParseIntError).map
        (fun steps => ⟨Direction.Right, steps⟩) := by
  rw [tryFromSpec, if_neg (by decide), if_pos rfl]

lemma tryFromSpec_cons_other (c : Char) (rest : List Char) (hL : c ≠ 'L') (hR : c ≠ 'R') :
    tryFromSpec (c :: rest) = .error .IncorrectStartOfLineCharacter := by
  rw [tryFromSpec, if_neg hL, if_neg hR]

lemma run_nil (d : Dial) : d.run [] = some d := rfl

lemma run_cons_of_turn (d d' : Dial) (c : Nat) (r : Rotation) (rs : List Rotation)
    (h : d.turn r = some (d', c)) : d.run (r :: rs) = d'.run rs := by
  rw [show d.run (r :: rs) =
      (match d.turn r with
        | some (d'', _) => d''.run rs
        | none => none) from rfl, h]

lemma run_ok (pre : List Rotation) :
    ∀ d : Dial, d.position ≤ 99 → ∃ d', d.run pre = some d' ∧ d'.position ≤ 99 := by
  induction pre with
  | nil => exact fun d hd => ⟨d, rfl, hd⟩
  | cons r rest ih =>
    intro d hd
    obtain ⟨d', hrun, hd'⟩ :=
      ih ⟨(((d.position : Int) + signedSteps r) % 100).toNat⟩ (turn_position_le d r)
    exact ⟨d', by rw [run_cons_of_turn d _ _ r rest (turn_eq_some d r hd)]; exact hrun, hd'⟩

/-! ## The claims -/

/-- Claim C1: for every starting position `p` in 0..99 and every rotation of
magnitude `s ≤ 2 ^ 31 - 1` in direction `d`, `Dial.turn` commits position
`(p + s * unit d) mod 100` taken in 0..99, and returns the number of unit
clicks `k ∈ 1..s` at which a pointer moving one click at a time in direction
`d` with wraparound is at position 0. -/
theorem claimC1_turn_position_and_crossings (p s : Nat) (d : Direction)
    (hp : p ≤ 99) (hs : s ≤ 2 ^ 31 - 1) :
    (Dial.mk p).turn ⟨d, s⟩ =
      some (⟨(((p : Int) + (s : Int) * d.toInt) % 100).toNat⟩, naiveCrossings d p s) := by
  cases d
  · rw [turn_left_closed p s hp hs, naiveCrossings_left_closed p s hp]
    have hpos : (((p : Int) + (s : Int) * Direction.Left.toInt) % 100).toNat =
        (p + 100 - s % 100) % 100 := by
      simp only [Direction.toInt]
      omega
    rw [hpos]
  · rw [turn_right_closed p s hp hs, naiveCrossings_right_closed p s hp]
    have hpos : (((p : Int) + (s : Int) * Direction.Right.toInt) % 100).toNat =
        (p + s) % 100 := by
      simp only [Direction.toInt]
      omega
    rw [hpos]

theorem claimC1_witness :
    (Dial.mk 50).turn ⟨Direction.Left, 50⟩ =
      some (⟨(((50 : Int) + (50 : Int) * Direction.Left.toInt) % 100).toNat⟩,
        naiveCrossings Direction.Left 50 50) :=
  claimC1_turn_position_and_crossings 50 50 Direction.Left (by decide) (by decide)

/-- Claim C2: over any sequence of `u32`-magnitude rotations starting from a
position in 0..99, the position is in 0..99 after every `turn` call (so in
particular before the next one), and the `u8` conversion inside `turn` never
fails: every prefix of the run produces `some` dial with position in
0..99. -/
theorem claimC2_position_invariant (rs : List Rotation) (d : Dial)
    (hp : d.position ≤ 99) (hu32 : ∀ r ∈ rs, r.steps ≤ 2 ^ 32 - 1) :
    ∀ pre suf, rs = pre ++ suf → ∃ d', d.run pre = some d' ∧ d'.position ≤ 99 :=
  fun pre _ _ => run_ok pre d hp

theorem claimC2_witness :
    ∃ d', (Dial.mk 50).run [⟨Direction.Right, 4294967295⟩] = some d' ∧ d'.position ≤ 99 :=
  claimC2_position_invariant [⟨Direction.Right, 4294967295⟩] ⟨50⟩ (by decide)
    (by decide) [⟨Direction.Right, 4294967295⟩] [] rfl

/-- Claim C4, amended: for every direction and every magnitude
`s ≤ 2 ^ 31 - 1`, the intermediate signed displacement computed by `turn`
equals the mathematical `s * unit d`: neither the `u32 → i32` cast nor the
multiplication by the direction multiplier wraps.  (As stated over ALL
parseable `u32` magnitudes the claim is false: see the counterexample at
`s = 2 ^ 31`.) -/
theorem claimC4_amended_displacement_exact (d : Direction) (s : Nat)
    (hs : s ≤ 2 ^ 31 - 1) :
    signedSteps ⟨d, s⟩ = (s : Int) * d.toInt := by
  cases d
  · rw [signedSteps_left s hs]
    simp only [Direction.toInt]
    omega
  · rw [signedSteps_right s hs]
    simp only [Direction.toInt]
    omega

theorem claimC4_amended_witness :
    signedSteps ⟨Direction.Right, 1220⟩ = (1220 : Int) * Direction.Right.toInt :=
  claimC4_amended_displacement_exact Direction.Right 1220 (by decide)

/-- Claim C4, counterexample: the magnitude `2 ^ 31` is parseable (it is a
`u32` value, produced e.g. from the digits `2147483648`), yet the computed
signed displacement for a Right rotation is `-2 ^ 31`, not
`2 ^ 31 * unit Right = 2 ^ 31`: the `cast_signed` wraps. -/
theorem claimC4_counterexample :
    parseU32 (strBytes ['2', '1', '4', '7', '4', '8', '3', '6', '4', '8']) = .ok (2 ^ 31) ∧
    signedSteps ⟨Direction.Right, 2 ^ 31⟩ = -(2 ^ 31 : Int) ∧
    signedSteps ⟨Direction.Right, 2 ^ 31⟩ ≠ (2 ^ 31 : Int) * Direction.Right.toInt := by
  refine ⟨by decide, by decide, by decide⟩

/-- Claim C5, amended: for `p` in 0..99 and an exact multiple of 100 as
magnitude, up to `2 ^ 31 - 1`, either direction: `turn` leaves the position
unchanged and returns exactly `s / 100` crossings.  (As stated over ALL
`u32` multiples of 100 the claim is false: see the counterexample at
`s = 2147483700`.) -/
theorem claimC5_amended_full_revolutions (p s : Nat) (d : Direction)
    (hp : p ≤ 99) (hs : s ≤ 2 ^ 31 - 1) (hmul : s % 100 = 0) :
    (Dial.mk p).turn ⟨d, s⟩ = some (⟨p⟩, s / 100) := by
  cases d
  · rw [turn_left_closed p s hp hs]
    have h1 : (p + 100 - s % 100) % 100 = p := by omega
    have h2 : (if p ≠ 0 ∧ p ≤ s % 100 then 1 else 0) = 0 := by
      rw [if_neg]
      omega
    rw [h1, h2, Nat.add_zero]
  · rw [turn_right_closed p s hp hs]
    have h1 : (p + s) % 100 = p := by omega
    have h2 : (if 100 ≤ p + s % 100 then 1 else 0) = 0 := by
      rw [if_neg]
      omega
    rw [h1, h2, Nat.add_zero]

theorem claimC5_amended_witness :
    (Dial.mk 50).turn ⟨Direction.Left, 200⟩ = some (⟨50⟩, 2) :=
  claimC5_amended_full_revolutions 50 200 Direction.Left (by decide) (by decide) (by decide)

/-- Claim C5, counterexample: `2147483700` is a `u32` multiple of 100, yet a
Right rotation by it from position 50 moves the dial to 54 and reports
`21474836` crossings, not position 50 with `2147483700 / 100 = 21474837`
crossings: the `u32 → i32` cast wraps the magnitude to a negative value
first. -/
theorem claimC5_counterexample :
    (2147483700 : Nat) % 100 = 0 ∧ (2147483700 : Nat) ≤ 2 ^ 32 - 1 ∧
    (Dial.mk 50).turn ⟨Direction.Right, 2147483700⟩ = some (⟨54⟩, 21474836) ∧
    (Dial.mk 50).turn ⟨Direction.Right, 2147483700⟩ ≠ some (⟨50⟩, 2147483700 / 100) := by
  refine ⟨by decide, by decide, by decide, by decide⟩

/-- Claim C3, counterexample: the spec's concrete scenario is wrong at its
last step.  Starting at 50, the listed rotations produce the listed
positions and crossing counts up to and including `R1` (which ends at 0),
but then `R101` from position 0 yields position 1 with 1 crossing — not
position 0 with 2 crossings as the scenario states.  (The repository's own
test interposes an extra `L1` before `R101`, which the spec dropped.) -/
theorem claimC3_counterexample :
    (Dial.mk 50).turn ⟨Direction.Left, 50⟩ = some (⟨0⟩, 1) ∧
    (Dial.mk 0).turn ⟨Direction.Left, 100⟩ = some (⟨0⟩, 1) ∧
    (Dial.mk 0).turn ⟨Direction.Right, 100⟩ = some (⟨0⟩, 1) ∧
    (Dial.mk 0).turn ⟨Direction.Right, 200⟩ = some (⟨0⟩, 2) ∧
    (Dial.mk 0).turn ⟨Direction.Left, 200⟩ = some (⟨0⟩, 2) ∧
    (Dial.mk 0).turn ⟨Direction.Left, 1⟩ = some (⟨99⟩, 0) ∧
    (Dial.mk 99).turn ⟨Direction.Right, 1⟩ = some (⟨0⟩, 1) ∧
    (Dial.mk 0).turn ⟨Direction.Right, 101⟩ ≠ some (⟨0⟩, 2) := by
  refine ⟨by decide, by decide, by decide, by decide, by decide, by decide, by decide,
    by decide⟩

/-- Claim C3, amended: the same scenario with the final step's true result:
`R101` from position 0 ends at position 1 with 1 crossing. -/
theorem claimC3_amended_scenario :
    (Dial.mk 50).turn ⟨Direction.Left, 50⟩ = some (⟨0⟩, 1) ∧
    (Dial.mk 0).turn ⟨Direction.Left, 100⟩ = some (⟨0⟩, 1) ∧
    (Dial.mk 0).turn ⟨Direction.Right, 100⟩ = some (⟨0⟩, 1) ∧
    (Dial.mk 0).turn ⟨Direction.Right, 200⟩ = some (⟨0⟩, 2) ∧
    (Dial.mk 0).turn ⟨Direction.Left, 200⟩ = some (⟨0⟩, 2) ∧
    (Dial.mk 0).turn ⟨Direction.Left, 1⟩ = some (⟨99⟩, 0) ∧
    (Dial.mk 99).turn ⟨Direction.Right, 1⟩ = some (⟨0⟩, 1) ∧
    (Dial.mk 0).turn ⟨Direction.Right, 101⟩ = some (⟨1⟩, 1) := by
  refine ⟨by decide, by decide, by decide, by decide, by decide, by decide, by decide,
    by decide⟩

/-- Claim C6, counterexample: for the `u32` magnitude `2 ^ 31`, turning
`Left` then `Right` by it from position 50 ends at 54, not back at 50: both
legs compute the same wrapped displacement `-2 ^ 31`. -/
theorem claimC6_counterexample :
    (2 : Nat) ^ 31 ≤ 2 ^ 32 - 1 ∧
    (Dial.mk 50).run [⟨Direction.Left, 2 ^ 31⟩, ⟨Direction.Right, 2 ^ 31⟩] = some ⟨54⟩ ∧
    (Dial.mk 50).run [⟨Direction.Left, 2 ^ 31⟩, ⟨Direction.Right, 2 ^ 31⟩] ≠ some ⟨50⟩ := by
  refine ⟨by decide, by decide, by decide⟩

/-- Claim C6, amended: for every starting position in 0..99 and every `u32`
magnitude except `2 ^ 31`, turning `Lx` then `Rx` returns the dial to its
original position. -/
theorem claimC6_amended_left_right_inverse (p x : Nat) (hp : p ≤ 99)
    (hx : x ≤ 2 ^ 32 - 1) (hne : x ≠ 2 ^ 31) :
    (Dial.mk p).run [⟨Direction.Left, x⟩, ⟨Direction.Right, x⟩] = some (Dial.mk p) := by
  have h1 := turn_eq_some ⟨p⟩ ⟨Direction.Left, x⟩ hp
  have hp1 : (((p : Int) + signedSteps ⟨Direction.Left, x⟩) % 100).toNat ≤ 99 :=
    turn_position_le ⟨p⟩ ⟨Direction.Left, x⟩
  have h2 := turn_eq_some ⟨(((p : Int) + signedSteps ⟨Direction.Left, x⟩) % 100).toNat⟩
    ⟨Direction.Right, x⟩ hp1
  rw [run_cons_of_turn _ _ _ _ _ h1, run_cons_of_turn _ _ _ _ _ h2, run_nil]
  have hsum := signedSteps_left_add_right x hx hne
  have key : ∀ L R : Int, L + R = 0 →
      ((((((p : Int) + L) % 100).toNat : Int) + R) % 100).toNat = p := by
    intro L R h
    omega
  rw [key _ _ hsum]

theorem claimC6_amended_witness :
    (Dial.mk 50).run [⟨Direction.Left, 150⟩, ⟨Direction.Right, 150⟩] = some (Dial.mk 50) :=
  claimC6_amended_left_right_inverse 50 150 (by decide) (by decide) (by decide)

/-- Claim C8: a rotation of magnitude 0 in either direction leaves the
position unchanged and reports 0 crossings. -/
theorem claimC8_zero_rotation (p : Nat) (d : Direction) (hp : p ≤ 99) :
    (Dial.mk p).turn ⟨d, 0⟩ = some (⟨p⟩, 0) := by
  cases d
  · rw [turn_left_closed p 0 hp (by decide)]
    have h1 : (p + 100 - 0 % 100) % 100 = p := by omega
    have h2 : (if p ≠ 0 ∧ p ≤ 0 % 100 then 1 else 0) = 0 := by
      rw [if_neg]
      omega
    rw [h1, h2]
  · rw [turn_right_closed p 0 hp (by decide)]
    have h1 : (p + 0) % 100 = p := by omega
    have h2 : (if 100 ≤ p + 0 % 100 then 1 else 0) = 0 := by
      rw [if_neg]
      omega
    rw [h1, h2]

theorem claimC8_witness : (Dial.mk 7).turn ⟨Direction.Right, 0⟩ = some (⟨7⟩, 0) :=
  claimC8_zero_rotation 7 Direction.Right (by decide)

/-- Claim C9: for a starting position in 0..99 and a magnitude at most
`2 ^ 31 - 1`, the crossing count returned by `turn` is either `s / 100` or
`s / 100 + 1`: beyond the full-revolution seed, at most one extra increment
fires. -/
theorem claimC9_crossing_bound (p s : Nat) (d : Direction) (hp : p ≤ 99)
    (hs : s ≤ 2 ^ 31 - 1) :
    ∃ d' c, (Dial.mk p).turn ⟨d, s⟩ = some (d', c) ∧ (c = s / 100 ∨ c = s / 100 + 1) := by
  cases d
  · exact ⟨_, _, turn_left_closed p s hp hs, by split_ifs <;> omega⟩
  · exact ⟨_, _, turn_right_closed p s hp hs, by split_ifs <;> omega⟩

theorem claimC9_witness :
    ∃ d' c, (Dial.mk 50).turn ⟨Direction.Right, 101⟩ = some (d', c) ∧
      (c = 101 / 100 ∨ c = 101 / 100 + 1) :=
  claimC9_crossing_bound 50 101 Direction.Right (by decide) (by decide)

/-- Claim C10: the parser is total on the UTF-8 encoding of every char
sequence (it never panics, in particular not on a multi-byte first char,
because the byte slice is taken only after the first char is confirmed to be
one-byte `L`/`R`); the empty string fails with
`IncorrectStartOfLineCharacter`, and a bare direction line `L` fails with an
integer-parse error whose cause is `Empty`. -/
theorem claimC10_parser_total :
    (∀ cs : List Char, ∃ res, Rotation.tryFromBytes (strBytes cs) = some res) ∧
    Rotation.tryFromBytes (strBytes []) = some (.error .IncorrectStartOfLineCharacter) ∧
    Rotation.tryFromBytes (strBytes ['L']) = some (.error (.ParseIntError .Empty)) ∧
    Rotation.tryFromBytes (strBytes ['é', '9']) =
      some (.error .IncorrectStartOfLineCharacter) := by
  refine ⟨fun cs => ⟨tryFromSpec cs, tryFromBytes_strBytes cs⟩, by decide, by decide,
    by decide⟩

/-- Claim C7: `Rotation::try_from` succeeds with `{Left, n}` (resp.
`{Right, n}`) exactly when the line starts with `L` (resp. `R`,
case-sensitive) and the remainder parses as a non-negative integer `n`; any
other leading character fails with `IncorrectStartOfLineCharacter`; an `L`/`R`
line whose remainder fails to parse fails with `ParseIntError` carrying the
underlying cause. -/
theorem claimC7_parse_characterization (cs : List Char) :
    (∀ n, Rotation.tryFromBytes (strBytes cs) = some (.ok ⟨Direction.Left, n⟩) ↔
        ∃ rest, cs = 'L' :: rest ∧ parseU32 (strBytes rest) = .ok n) ∧
    (∀ n, Rotation.tryFromBytes (strBytes cs) = some (.ok ⟨Direction.Right, n⟩) ↔
        ∃ rest, cs = 'R' :: rest ∧ parseU32 (strBytes rest) = .ok n) ∧
    (∀ c rest, cs = c :: rest → c ≠ 'L' → c ≠ 'R' →
        Rotation.tryFromBytes (strBytes cs) =
          some (.error .IncorrectStartOfLineCharacter)) ∧
    (∀ c rest e, cs = c :: rest → c = 'L' ∨ c = 'R' →
        parseU32 (strBytes rest) = .error e →
        Rotation.tryFromBytes (strBytes cs) = some (.error (.ParseIntError e))) := by
  rw [tryFromBytes_strBytes cs]
  refine ⟨?_, ?_, ?_, ?_⟩
  · intro n
    rw [Option.some_inj]
    cases cs with
    | nil =>
      constructor
      · intro h
        exact Except.noConfusion h
      · rintro ⟨rest, h, -⟩
        cases h
    | cons c rest0 =>
      by_cases hL : c = 'L'
      · subst hL
        rw [tryFromSpec_cons_L]
        constructor
        · intro h
          refine ⟨rest0, rfl, ?_⟩
          cases hpu : parseU32 (strBytes rest0) with
          | ok m =>
            rw [hpu] at h
            simp [Except.map, Except.mapError] at h
            rw [h]
          | error e =>
            rw [hpu] at h
            simp [Except.map, Except.mapError] at h
        · rintro ⟨rest', heq, hok⟩
          injection heq with h1 h2
          subst h2
          rw [hok]
          rfl
      · by_cases hR : c = 'R'
        · subst hR
          rw [tryFromSpec_cons_R]
          constructor
          · intro h
            exfalso
            cases hpu : parseU32 (strBytes rest0) with
            | ok m =>
              rw [hpu] at h
              simp [Except.map, Except.mapError] at h
            | error e =>
              rw [hpu] at h
              simp [Except.map, Except.mapError] at h
          · rintro ⟨rest', heq, -⟩
            injection heq with h1 h2
            exact absurd h1 (by decide)
        · rw [tryFromSpec_cons_other c rest0 hL hR]
          constructor
          · intro h
            exact Except.noConfusion h
          · rintro ⟨rest', heq, -⟩
            injection heq with h1 h2
            exact absurd h1 hL
  · intro n
    rw [Option.some_inj]
    cases cs with
    | nil =>
      constructor
      · intro h
        exact Except.noConfusion h
      · rintro ⟨rest, h, -⟩
        cases h
    | cons c rest0 =>
      by_cases hR : c = 'R'
      · subst hR
        rw [tryFromSpec_cons_R]
        constructor
        · intro h
          refine ⟨rest0, rfl, ?_⟩
          cases hpu : parseU32 (strBytes rest0) with
          | ok m =>
            rw [hpu] at h
            simp [Except.map, Except.mapError] at h
            rw [h]
          | error e =>
            rw [hpu] at h
            simp [Except.map, Except.mapError] at h
        · rintro ⟨rest', heq, hok⟩
          injection heq with h1 h2
          subst h2
          rw [hok]
          rfl
      · by_cases hL : c = 'L'
        · subst hL
          rw [tryFromSpec_cons_L]
          constructor
          · intro h
            exfalso
            cases hpu : parseU32 (strBytes rest0) with
            | ok m =>
              rw [hpu] at h
              simp [Except.map, Except.mapError] at h
            | error e =>
              rw [hpu] at h
              simp [Except.map, Except.mapError] at h
          · rintro ⟨rest', heq, -⟩
            injection heq with h1 h2
            exact absurd h1 (by decide)
        · rw [tryFromSpec_cons_other c rest0 hL hR]
          constructor
          · intro h
            exact Except.noConfusion h
          · rintro ⟨rest', heq, -⟩
            injection heq with h1 h2
            exact absurd h1 hR
  · rintro c rest0 rfl hL hR
    rw [Option.some_inj, tryFromSpec_cons_other c rest0 hL hR]
  · rintro c rest0 e rfl hLR hpe
    rcases hLR with rfl | rfl
    · rw [Option.some_inj, tryFromSpec_cons_L, hpe]
      rfl
    · rw [Option.some_inj, tryFromSpec_cons_R, hpe]
      rfl

theorem claimC7_witness :
    Rotation.tryFromBytes (strBytes ['X', '9', '0']) =
        some (.error .IncorrectStartOfLineCharacter) ∧
    Rotation.tryFromBytes (strBytes ['L', 'Y', 'Y']) =
        some (.error (.ParseIntError .InvalidDigit)) ∧
    Rotation.tryFromBytes (strBytes ['L', '5', '0']) =
      some (.ok ⟨Direction.Left, 50⟩) := by
  refine ⟨?_, ?_, ?_⟩
  · exact (claimC7_parse_characterization ['X', '9', '0']).2.2.1 'X' ['9', '0'] rfl
      (by decide) (by decide)
  · exact (claimC7_parse_characterization ['L', 'Y', 'Y']).2.2.2 'L' ['Y', 'Y']
      .InvalidDigit rfl (Or.inl rfl) (by decide)
  · exact ((claimC7_parse_characterization ['L', '5', '0']).1 50).mpr
      ⟨['5', '0'], rfl, by decide⟩

end Aoc
